import Mathlib

/-!
Verification of the Loom agent-execution core.

Shallow embedding of the orchestration engine (`agents/orchestrator.py`),
the shared context store (`core/context_manager.py`) and the layered
configuration store (`core/config_manager.py`).

Python dictionaries are modelled as association lists that preserve
insertion order; `alookup` finds the first binding for a key and `aset`
models `d[k] = v` (replace in place, or append a new binding at the end),
matching CPython dict semantics for unique keys.
-/

namespace Loom

/-- Lookup in a Python-dict-like association list: first binding wins. -/
def alookup {α : Type} : List (String × α) → String → Option α
  | [], _ => none
  | (k, v) :: rest, key => if k = key then some v else alookup rest key

/-- Python dict assignment `d[key] = v`: replace the existing binding in place,
otherwise append a fresh binding at the end (insertion order). -/
def aset {α : Type} : List (String × α) → String → α → List (String × α)
  | [], key, v => [(key, v)]
  | (k, w) :: rest, key, v =>
    if k = key then (k, v) :: rest else (k, w) :: aset rest key v

/-! ## Context Store (`core/context_manager.py`) -/

/-- `ContextManager`: a mapping from string key to the ordered history of
values stored under that key (`self._context: Dict[str, List[Any]]`).
The stored values are `Any` in Python; the embedding is polymorphic in `α`. -/
structure ContextManager (α : Type) where
  _context : List (String × List α)

/-- `ContextManager.__init__`: empty context. -/
def ContextManager.empty {α : Type} : ContextManager α := ⟨[]⟩

/-- `ContextManager.get`: most recent value for `key`
(`self._context[key][-1]`), or `default` if the key is absent or its
history is empty. -/
def ContextManager.get {α : Type} (cm : ContextManager α) (key : String) (default : α) : α :=
  match alookup cm._context key with
  | some hist => hist.getLast?.getD default
  | none => default

/-- `ContextManager.set`: history for `key` becomes `[value]`. -/
def ContextManager.set {α : Type} (cm : ContextManager α) (key : String) (value : α) :
    ContextManager α :=
  ⟨aset cm._context key [value]⟩

/-- `ContextManager.add`: append `value` to the history for `key`,
creating an empty history first if the key is absent. -/
def ContextManager.add {α : Type} (cm : ContextManager α) (key : String) (value : α) :
    ContextManager α :=
  ⟨aset cm._context key (((alookup cm._context key).getD []) ++ [value])⟩

/-- `ContextManager.get_history`: the full history for `key`, `[]` if absent. -/
def ContextManager.get_history {α : Type} (cm : ContextManager α) (key : String) : List α :=
  (alookup cm._context key).getD []

/-- `ContextManager.update`: for every pair in `data`, behave as `set`. -/
def ContextManager.update {α : Type} (cm : ContextManager α) (data : List (String × α)) :
    ContextManager α :=
  data.foldl (fun c kv => c.set kv.1 kv.2) cm

/-- `ContextManager.clear`: empty the store. -/
def ContextManager.clear {α : Type} (_cm : ContextManager α) : ContextManager α := ⟨[]⟩

/-- `ContextManager.__contains__`. -/
def ContextManager.contains {α : Type} (cm : ContextManager α) (key : String) : Bool :=
  (alookup cm._context key).isSome

/-- One mutating operation on the context store. -/
inductive CtxStep (α : Type) where
  | set (key : String) (value : α)
  | add (key : String) (value : α)
  | update (data : List (String × α))
  | clear

/-- Apply one mutating operation. -/
def applyCtxStep {α : Type} (cm : ContextManager α) : CtxStep α → ContextManager α
  | CtxStep.set k v => cm.set k v
  | CtxStep.add k v => cm.add k v
  | CtxStep.update d => cm.update d
  | CtxStep.clear => cm.clear

/-- Run a sequence of mutating operations from the empty store. -/
def runCtxSteps {α : Type} (steps : List (CtxStep α)) : ContextManager α :=
  steps.foldl applyCtxStep ContextManager.empty

/-! ## Orchestrator (`agents/orchestrator.py`) -/

/-- A loaded processing unit: its registered name (the manifest `name`,
which is the key of `self.agents` and what the orchestrator's reverse
lookup `list(self.agents.keys())[...]` recovers for a uniquely-registered
instance) and its `execute` method.  `execute` receives and returns `Any`;
the embedding is polymorphic in the value type `V`, and a raised exception
is an `Except.error` carrying its message. -/
structure Agent (V : Type) where
  name : String
  exec : V → Except String V

/-- The loop body of `AgentOrchestrator.run_sequence`, started at
`current_input = initial_task`.  Returns the trace of
`(agent name, argument passed to execute)` for every `execute` actually
invoked, and the final `current_input` (or the propagated exception).
Both branches of the special-case dispatch call `agent.execute(initial_task)`;
only the branch for agents not named `"project-analysis-agent"` updates
`current_input` to the output. -/
def runSequenceFrom {V : Type} : List (Agent V) → V → V → List (String × V) × Except String V
  | [], _, current => ([], Except.ok current)
  | a :: rest, task, current =>
    match a.exec task with
    | Except.error e => ([(a.name, task)], Except.error e)
    | Except.ok output =>
      let next := if a.name = "project-analysis-agent" then current else output
      let p := runSequenceFrom rest task next
      ((a.name, task) :: p.1, p.2)

/-- `AgentOrchestrator.run_sequence(initial_task)` over a resolved
execution order. -/
def run_sequence {V : Type} (order : List (Agent V)) (initialTask : V) :
    List (String × V) × Except String V :=
  runSequenceFrom order initialTask initialTask

/-- The value of `current_input` after a run in which every `execute`
succeeds: fold over the order, keeping `current` unchanged for agents
named `"project-analysis-agent"` and replacing it with the output otherwise. -/
def chainFold {V : Type} (task : V) : List (Agent V) → V → V
  | [], cur => cur
  | a :: rest, cur =>
    match a.exec task with
    | Except.ok output =>
      chainFold task rest (if a.name = "project-analysis-agent" then cur else output)
    | Except.error _ => cur

/-- The loop of `AgentOrchestrator.prepare_execution_sequence` over a
non-empty configured order: resolve each name via `self.agents.get`,
raising `ValueError` at the first name with no loaded agent. -/
def resolveOrder {V : Type} (agents : List (String × Agent V)) :
    List String → Except String (List (Agent V))
  | [] => Except.ok []
  | n :: rest =>
    match alookup agents n with
    | none => Except.error ("Agent " ++ n ++ " from execution order not found.")
    | some a => (resolveOrder agents rest).map (fun seq => a :: seq)

/-- `AgentOrchestrator.prepare_execution_sequence`: an empty configured
order falls back to all loaded agents (dict-value order); a non-empty
order is resolved name by name. -/
def prepare_execution_sequence {V : Type} (agents : List (String × Agent V))
    (order : List String) : Except String (List (Agent V)) :=
  match order with
  | [] => Except.ok (agents.map Prod.snd)
  | n :: rest => resolveOrder agents (n :: rest)

/-- `AgentOrchestrator.__init__` followed by `run_sequence`: construction
resolves the execution order (raising before any `execute` is invoked),
then the run produces its invocation trace.  A construction failure yields
an empty trace: no agent `execute` was called. -/
def constructAndRun {V : Type} (agents : List (String × Agent V)) (order : List String)
    (task : V) : List (String × V) × Except String V :=
  match prepare_execution_sequence agents order with
  | Except.error e => ([], Except.error e)
  | Except.ok seq => run_sequence seq task

/-! ## Configuration Store (`core/config_manager.py`) -/

/-- A JSON-shaped configuration value (`json.load` result): mappings are
insertion-ordered association lists, numbers are modelled as integers
(no claim depends on float arithmetic). -/
inductive Json where
  | null
  | bool (b : Bool)
  | num (n : Int)
  | str (s : String)
  | arr (elems : List Json)
  | obj (entries : List (String × Json))

/-- `ConfigManager._get_from_dict`: walk the already-split dotted path
(`key.split('.')` in Python) through nested mappings; return `default`
the first time a segment is missing or the current value is not a mapping;
after the last segment, return the value reached. -/
def getFromDict : Json → List String → Json → Json
  | v, [], _ => v
  | Json.obj entries, k :: rest, default =>
    match alookup entries k with
    | some v => getFromDict v rest default
    | none => default
  | _, _ :: _, default => default

/-- `ConfigManager.get` over a loaded top-level configuration dict
(the path is the result of splitting the dotted key on `.`). -/
def configGet (config : List (String × Json)) (path : List String) (default : Json) : Json :=
  getFromDict (Json.obj config) path default

/-- `ConfigManager.get_agent_execution_order`:
`self.get('agent_execution_order', [])`. -/
def get_agent_execution_order (config : List (String × Json)) : Json :=
  configGet config ["agent_execution_order"] (Json.arr [])

/-- `ConfigManager._deep_merge`, iterating the override's items in order
over `merged = copy.deepcopy(base)`: for each `(key, value)`, if `value`
is a mapping and `merged` holds a mapping at `key`, recurse; otherwise
`merged[key] = value`. -/
def deepMergeFold (merged : List (String × Json)) :
    List (String × Json) → List (String × Json)
  | [] => merged
  | (k, Json.obj ov) :: rest =>
    match alookup merged k with
    | some (Json.obj bv) =>
      deepMergeFold (aset merged k (Json.obj (deepMergeFold bv ov))) rest
    | _ => deepMergeFold (aset merged k (Json.obj ov)) rest
  | (k, v) :: rest => deepMergeFold (aset merged k v) rest
termination_by l => sizeOf l
decreasing_by
  all_goals simp_wf
  all_goals simp_arith [sizeOf]

/-- `ConfigManager._deep_merge(base, override)`. -/
def deep_merge (base override : List (String × Json)) : List (String × Json) :=
  deepMergeFold base override

/-- `True` exactly when both the override value and the base's value at
the same key are mappings — the recursive case of `_deep_merge`. -/
def bothObj : Json → Option Json → Bool
  | Json.obj _, some (Json.obj _) => true
  | _, _ => false

/-- `ConfigManager.set` over an already-split dotted path: walk
`d.setdefault(k, {})` through `keys[:-1]` and assign the leaf.  If an
existing value along a proper prefix of the path is not a mapping, the
Python code raises (`AttributeError` from `setdefault` on a non-dict, or
`TypeError` from the final item assignment); that is the `.error` case.
No partial mutation is possible: `setdefault` only inserts fresh `{}`
for absent keys, and after the first absent key every later segment is
absent too, so a raise can only happen before the first insertion. -/
def setPath (d : List (String × Json)) :
    List String → Json → Except Unit (List (String × Json))
  | [], _ => Except.error ()
  | [k], v => Except.ok (aset d k v)
  | k :: k2 :: rest, v =>
    match alookup d k with
    | none =>
      (setPath [] (k2 :: rest) v).map (fun inner => aset d k (Json.obj inner))
    | some (Json.obj inner) =>
      (setPath inner (k2 :: rest) v).map (fun inner2 => aset d k (Json.obj inner2))
    | some _ => Except.error ()

/-- The three relevant states of the file at `config_path` when
`load_config` runs: absent, present-but-malformed JSON, or a parsed
top-level JSON document. -/
inductive ConfigFile where
  | missing
  | malformed
  | parsed (doc : List (String × Json))

/-- The exceptions `load_config` lets escape. -/
inductive LoadError where
  | malformedJson
  | validationError

/-- `ConfigManager.load_config`: on `FileNotFoundError` the config becomes
empty (tolerated); on malformed JSON a `ValueError` escapes with
`self._config` untouched; otherwise `_validate_config` runs (abstracted
here as the boolean `validate`, standing for `jsonschema.validate` against
the loaded schema) and only after it succeeds is `self._config` assigned
the loaded document — a `ConfigValidationError` also leaves `self._config`
untouched.  Returns the escaping exception, if any, together with the
resulting value of `self._config`. -/
def load_config (validate : List (String × Json) → Bool) (file : ConfigFile)
    (config : List (String × Json)) :
    Except LoadError Unit × List (String × Json) :=
  match file with
  | ConfigFile.missing => (Except.ok (), [])
  | ConfigFile.malformed => (Except.error LoadError.malformedJson, config)
  | ConfigFile.parsed doc =>
    if validate doc then (Except.ok (), doc)
    else (Except.error LoadError.validationError, config)

/-! ## Log sanitization (`AgentOrchestrator._sanitize_for_logging`)

The three redaction regexes are compiled into explicit scanners.  Each
pattern here is deterministic: its sub-parts consume disjoint character
classes, so Python's backtracking never produces a different match than
the greedy left-to-right scan modelled below.  `re.sub` semantics:
leftmost match, non-overlapping, scanning resumes after the match end.
Character classes are the ASCII readings of `\w`, `\s` and
`[A-Za-z0-9+/]` (no claim involves non-ASCII input). -/

/-- `\w` (ASCII): letters, digits, underscore. -/
def isWordChar (c : Char) : Bool := c.isAlphanum || c = '_'

/-- `[\w\-_]`: the credential-body class of patterns 1 and 2. -/
def isTokenChar (c : Char) : Bool := isWordChar c || c = '-'

/-- `\s` (ASCII): space, tab, newline, carriage return, vertical tab, form feed. -/
def isSpaceChar (c : Char) : Bool :=
  c = ' ' || c = '\t' || c = '\n' || c = '\r' || c = Char.ofNat 11 || c = Char.ofNat 12

/-- `[A-Za-z0-9+/]`: the base64 class of pattern 3. -/
def isBase64Char (c : Char) : Bool := c.isAlphanum || c = '+' || c = '/'

/-- `["\']`: an optional quote (the apostrophe written via its code point). -/
def isQuoteChar (c : Char) : Bool := c = '"' || c = Char.ofNat 39

/-- Match a literal case-insensitively (`re.IGNORECASE`); returns the rest
of the input after the literal. -/
def matchCI : List Char → List Char → Option (List Char)
  | [], cs => some cs
  | _ :: _, [] => none
  | p :: ps, c :: cs => if c.toLower = p.toLower then matchCI ps cs else none

/-- `api[_-]?key` (case-insensitive). -/
def matchApiKey (cs : List Char) : Option (List Char) :=
  match matchCI ['a', 'p', 'i'] cs with
  | none => none
  | some r =>
    match r with
    | [] => none
    | c :: r2 =>
      if c = '_' || c = '-' then matchCI ['k', 'e', 'y'] r2
      else matchCI ['k', 'e', 'y'] (c :: r2)

/-- `(api[_-]?key|token|password|secret)`, alternatives tried in pattern
order (their first letters differ, so at most one can match). -/
def matchKeyword (cs : List Char) : Option (List Char) :=
  match matchApiKey cs with
  | some r => some r
  | none =>
    match matchCI ['t', 'o', 'k', 'e', 'n'] cs with
    | some r => some r
    | none =>
      match matchCI ['p', 'a', 's', 's', 'w', 'o', 'r', 'd'] cs with
      | some r => some r
      | none => matchCI ['s', 'e', 'c', 'r', 'e', 't'] cs

/-- `["\']?`: consume one quote if present. -/
def skipOptQuote : List Char → List Char
  | [] => []
  | c :: r => if isQuoteChar c then r else c :: r

/-- Pattern 1: `(api[_-]?key|token|password|secret)["\']?\s*[:=]\s*["\']?[\w\-_]+`.
Returns the input remaining after the match. -/
def matchP1 (cs : List Char) : Option (List Char) :=
  match matchKeyword cs with
  | none => none
  | some r1 =>
    match (skipOptQuote r1).dropWhile isSpaceChar with
    | [] => none
    | c :: r4 =>
      if c = ':' || c = '=' then
        let r6 := skipOptQuote (r4.dropWhile isSpaceChar)
        if (r6.takeWhile isTokenChar).isEmpty then none
        else some (r6.dropWhile isTokenChar)
      else none

/-- Pattern 2: `Bearer\s+[\w\-_]+` (case-insensitive). -/
def matchP2 (cs : List Char) : Option (List Char) :=
  match matchCI ['b', 'e', 'a', 'r', 'e', 'r'] cs with
  | none => none
  | some r1 =>
    if (r1.takeWhile isSpaceChar).isEmpty then none
    else
      let r2 := r1.dropWhile isSpaceChar
      if (r2.takeWhile isTokenChar).isEmpty then none
      else some (r2.dropWhile isTokenChar)

/-- `={0,2}`: greedily consume up to two equals signs. -/
def dropUpTo2Eq : List Char → List Char
  | '=' :: '=' :: r => r
  | '=' :: r => r
  | r => r

/-- Pattern 3: `[A-Za-z0-9+/]{32,}={0,2}` (base64-like runs). -/
def matchP3 (cs : List Char) : Option (List Char) :=
  if (cs.takeWhile isBase64Char).length < 32 then none
  else some (dropUpTo2Eq (cs.dropWhile isBase64Char))

/-- The replacement text `'[REDACTED]'`. -/
def redactedMarker : List Char :=
  ['[', 'R', 'E', 'D', 'A', 'C', 'T', 'E', 'D', ']']

/-- The scan of `re.sub(pattern, '[REDACTED]', data)`: at each position,
emit the replacement and resume after the match, or keep the character.
Fuel is the input length; every pattern consumes at least one character,
so one fuel unit per emitted character or match suffices. -/
def substFuel (m : List Char → Option (List Char)) : Nat → List Char → List Char
  | 0, cs => cs
  | _ + 1, [] => []
  | fuel + 1, c :: cs =>
    match m (c :: cs) with
    | some rest => redactedMarker ++ substFuel m fuel rest
    | none => c :: substFuel m fuel cs

/-- `re.sub(pattern, '[REDACTED]', data)`. -/
def reSub (m : List Char → Option (List Char)) (cs : List Char) : List Char :=
  substFuel m cs.length cs

/-- The truncation suffix `"... [truncated]"`. -/
def truncatedMarker : List Char :=
  ['.', '.', '.', ' ', '[', 't', 'r', 'u', 'n', 'c', 'a', 't', 'e', 'd', ']']

/-- `AgentOrchestrator._sanitize_for_logging(data, max_length)`: empty in,
empty out; truncate to `maxLength` with the truncation suffix first, then
apply the three redaction patterns in order. -/
def sanitize_for_logging (data : List Char) (maxLength : Nat) : List Char :=
  if data.isEmpty then []
  else
    let truncated :=
      if data.length > maxLength then data.take maxLength ++ truncatedMarker else data
    reSub matchP3 (reSub matchP2 (reSub matchP1 truncated))

/-- `l.isPrefixOf`-style Boolean prefix test used to state containment. -/
def isPrefixB : List Char → List Char → Bool
  | [], _ => true
  | _ :: _, [] => false
  | p :: ps, c :: cs => p = c && isPrefixB ps cs

/-- Boolean substring test: some suffix of the haystack starts with the needle. -/
def containsSub (needle : List Char) : List Char → Bool
  | [] => isPrefixB needle []
  | c :: cs => isPrefixB needle (c :: cs) || containsSub needle cs

/-- The literal secret from the claim: `abcdef123456`. -/
def secretChars : List Char :=
  ['a', 'b', 'c', 'd', 'e', 'f', '1', '2', '3', '4', '5', '6']

/-- The claim's probe substring `api_key=abcdef123456`. -/
def probeChars : List Char :=
  ['a', 'p', 'i', '_', 'k', 'e', 'y', '='] ++ secretChars

/-! ## Concrete fixtures used by witnesses and counterexamples -/

/-- A unit whose `execute` returns its input unchanged. -/
def echoAgent (n : String) : Agent String := ⟨n, fun t => Except.ok t⟩

/-- A unit whose `execute` returns a fixed output. -/
def constAgent (n : String) (out : String) : Agent String := ⟨n, fun _ => Except.ok out⟩

/-- A unit whose `execute` raises. -/
def failAgent (n : String) (msg : String) : Agent String := ⟨n, fun _ => Except.error msg⟩

/-- A unit registered under the special name `project-analysis-agent`
whose `execute` returns a fixed analysis result. -/
def paaAgent : Agent String := ⟨"project-analysis-agent", fun _ => Except.ok "ANALYSIS"⟩

/-- The spec's deep-merge example base tree. -/
def bEx : List (String × Json) :=
  [("a", Json.obj [("x", Json.num 1), ("y", Json.num 2)])]

/-- The spec's deep-merge example override tree. -/
def oEx : List (String × Json) :=
  [("a", Json.obj [("y", Json.num 9), ("z", Json.num 3)])]

/-- The value claim C3 requires the deep merge to hold at key `k`
(stated from the spec sentence, to be compared with `deep_merge`):
keys absent from the override keep the base value, keys where both trees
hold mappings are merged recursively, and every other overridden key takes
the override value wholesale. -/
def mergeSpec (base override : List (String × Json)) (k : String) : Option Json :=
  match alookup override k with
  | none => alookup base k
  | some v =>
    match v, alookup base k with
    | Json.obj o2, some (Json.obj b2) => some (Json.obj (deep_merge b2 o2))
    | _, _ => some v

/-! ## Helper lemmas -/

theorem alookup_aset {α : Type} (l : List (String × α)) (k k' : String) (v : α) :
    alookup (aset l k v) k' = if k = k' then some v else alookup l k' := by
  induction l with
  | nil => simp [aset, alookup]
  | cons hd tl ih =>
    obtain ⟨k₀, w⟩ := hd
    by_cases h₀ : k₀ = k
    · subst h₀
      by_cases h' : k₀ = k'
      · subst h'
        simp [aset, alookup]
      · simp [aset, alookup, h']
    · by_cases h' : k₀ = k'
      · subst h'
        have : ¬k = k₀ := fun h => h₀ h.symm
        simp [aset, alookup, h₀, this]
      · simp [aset, alookup, h₀, h', ih]

theorem set_histNonempty {α : Type} (cm : ContextManager α) (key : String) (v : α)
    (hinv : ∀ k h, alookup cm._context k = some h → h ≠ []) :
    ∀ k h, alookup (cm.set key v)._context k = some h → h ≠ [] := by
  intro k h hl
  rw [ContextManager.set] at hl
  simp only [alookup_aset] at hl
  by_cases hk : key = k
  · simp [hk] at hl
    simp [← hl]
  · simp [hk] at hl
    exact hinv k h hl

theorem update_histNonempty {α : Type} (data : List (String × α)) (cm : ContextManager α)
    (hinv : ∀ k h, alookup cm._context k = some h → h ≠ []) :
    ∀ k h, alookup (cm.update data)._context k = some h → h ≠ [] := by
  induction data generalizing cm with
  | nil => exact hinv
  | cons kv rest ih =>
    exact ih (cm.set kv.1 kv.2) (set_histNonempty cm kv.1 kv.2 hinv)

theorem applyCtxStep_histNonempty {α : Type} (cm : ContextManager α) (s : CtxStep α)
    (hinv : ∀ k h, alookup cm._context k = some h → h ≠ []) :
    ∀ k h, alookup (applyCtxStep cm s)._context k = some h → h ≠ [] := by
  cases s with
  | set key v => exact set_histNonempty cm key v hinv
  | add key v =>
    intro k h hl
    rw [applyCtxStep, ContextManager.add] at hl
    simp only [alookup_aset] at hl
    by_cases hk : key = k
    · simp [hk] at hl
      simp [← hl]
    · simp [hk] at hl
      exact hinv k h hl
  | update data => exact update_histNonempty data cm hinv
  | clear =>
    intro k h hl
    simp [applyCtxStep, ContextManager.clear, alookup] at hl

theorem runCtxSteps_histNonempty {α : Type} (steps : List (CtxStep α)) :
    ∀ k h, alookup (runCtxSteps steps)._context k = some h → h ≠ [] := by
  have aux : ∀ (ss : List (CtxStep α)) (cm : ContextManager α),
      (∀ k h, alookup cm._context k = some h → h ≠ []) →
      ∀ k h, alookup (ss.foldl applyCtxStep cm)._context k = some h → h ≠ [] := by
    intro ss
    induction ss with
    | nil => intro cm hinv; exact hinv
    | cons s rest ih =>
      intro cm hinv
      exact ih (applyCtxStep cm s) (applyCtxStep_histNonempty cm s hinv)
  refine aux steps ContextManager.empty ?_
  intro k h hl
  simp [ContextManager.empty, alookup] at hl

/-! ## Claim theorems -/

/-- C4: on a store where `k` is absent, `add(k,1); add(k,2)` gives
`get(k) = 2` and `history(k) = [1,2]`; a subsequent `set(k,9)` gives
`get(k) = 9` and `history(k) = [9]` — `set` replaces the whole history,
`add` appends without discarding. -/
theorem context_add_add_then_set (α : Type) (cm : ContextManager α) (k : String)
    (v₁ v₂ v₉ d : α) (habs : alookup cm._context k = none) :
    ((cm.add k v₁).add k v₂).get k d = v₂ ∧
    ((cm.add k v₁).add k v₂).get_history k = [v₁, v₂] ∧
    (((cm.add k v₁).add k v₂).set k v₉).get k d = v₉ ∧
    (((cm.add k v₁).add k v₂).set k v₉).get_history k = [v₉] := by
  simp [ContextManager.add, ContextManager.set, ContextManager.get,
    ContextManager.get_history, alookup_aset, habs]

/-- Witness for C4 at a concrete store, key and values. -/
theorem context_add_add_then_set_witness :
    (((ContextManager.empty : ContextManager Int).add "k" 1).add "k" 2).get "k" 0 = 2 ∧
    (((ContextManager.empty : ContextManager Int).add "k" 1).add "k" 2).get_history "k" =
      [1, 2] ∧
    ((((ContextManager.empty : ContextManager Int).add "k" 1).add "k" 2).set "k" 9).get "k" 0 =
      9 ∧
    ((((ContextManager.empty : ContextManager Int).add "k" 1).add "k" 2).set "k" 9).get_history
      "k" = [9] :=
  context_add_add_then_set Int ContextManager.empty "k" 1 2 9 0 rfl

/-- C9: in every store reachable from the empty store by `set`, `add`,
`update` and `clear`, every present key has a non-empty history, so `get`
returns the last stored value (never the fall-through default). -/
theorem context_reachable_nonempty_history (α : Type) (steps : List (CtxStep α))
    (k : String) (d : α) (hc : (runCtxSteps steps).contains k = true) :
    (runCtxSteps steps).get_history k ≠ [] ∧
    ((runCtxSteps steps).get_history k).getLast? = some ((runCtxSteps steps).get k d) := by
  rw [ContextManager.contains] at hc
  obtain ⟨h, hl⟩ := Option.isSome_iff_exists.mp hc
  have hne : h ≠ [] := runCtxSteps_histNonempty steps k h hl
  obtain ⟨x, hx⟩ := Option.isSome_iff_exists.mp (List.getLast?_isSome.mpr hne)
  constructor
  · simp [ContextManager.get_history, hl, hne]
  · simp [ContextManager.get_history, ContextManager.get, hl, hx]

/-- Witness for C9 on the reachable store `set("a", 1)`. -/
theorem context_reachable_nonempty_history_witness :
    (runCtxSteps [CtxStep.set "a" (1 : Int)]).get_history "a" ≠ [] ∧
    ((runCtxSteps [CtxStep.set "a" (1 : Int)]).get_history "a").getLast? =
      some ((runCtxSteps [CtxStep.set "a" (1 : Int)]).get "a" 0) :=
  context_reachable_nonempty_history Int [CtxStep.set "a" 1] "a" 0 (by decide)

theorem runSequenceFrom_all_ok {V : Type} (agents : List (Agent V)) (task : V)
    (hok : ∀ a ∈ agents, ∃ v, a.exec task = Except.ok v) (cur : V) :
    runSequenceFrom agents task cur =
      (agents.map (fun a => (a.name, task)), Except.ok (chainFold task agents cur)) := by
  induction agents generalizing cur with
  | nil => simp [runSequenceFrom, chainFold]
  | cons a rest ih =>
    obtain ⟨v, hv⟩ := hok a (List.mem_cons_self a rest)
    have hrest : ∀ b ∈ rest, ∃ w, b.exec task = Except.ok w :=
      fun b hb => hok b (List.mem_cons_of_mem a hb)
    simp [runSequenceFrom, chainFold, hv, ih hrest]

/-- C1 counterexample: a one-unit order holding only an agent named
`project-analysis-agent` whose `execute` succeeds with `"ANALYSIS"`;
`run_sequence` still returns the original task `"TASK"`, so
`current_input` was not updated to the unit's return value and the
returned value is not the last unit's return value. -/
theorem run_sequence_chaining_counterexample :
    run_sequence [paaAgent] "TASK" =
      ([("project-analysis-agent", "TASK")], Except.ok "TASK") ∧
    paaAgent.exec "TASK" = Except.ok "ANALYSIS" ∧
    ("TASK" : String) ≠ "ANALYSIS" := by
  refine ⟨rfl, rfl, by decide⟩

/-- C1 as amended: in a run where every `execute` succeeds, every unit is
invoked with the original initial task, `current_input` is updated to the
unit's return value for every unit except those named
`project-analysis-agent` (for which it is left unchanged), and
`run_sequence` returns the final `current_input`. -/
theorem run_sequence_original_task_chain (V : Type) (agents : List (Agent V)) (task : V)
    (hok : ∀ a ∈ agents, ∃ v, a.exec task = Except.ok v) :
    (run_sequence agents task).1 = agents.map (fun a => (a.name, task)) ∧
    (run_sequence agents task).2 = Except.ok (chainFold task agents task) := by
  rw [run_sequence, runSequenceFrom_all_ok agents task hok task]
  exact ⟨rfl, rfl⟩

/-- Witness for the amended C1: a three-unit order (ordinary, analysis,
ordinary); every unit receives `"T"`, the analysis output is dropped from
the chain, and the final output is the last ordinary unit's value. -/
theorem run_sequence_original_task_chain_witness :
    (run_sequence [constAgent "A" "OUT1", paaAgent, constAgent "B" "OUT2"] "T").1 =
      [("A", "T"), ("project-analysis-agent", "T"), ("B", "T")] ∧
    (run_sequence [constAgent "A" "OUT1", paaAgent, constAgent "B" "OUT2"] "T").2 =
      Except.ok "OUT2" := by
  have h := run_sequence_original_task_chain String
    [constAgent "A" "OUT1", paaAgent, constAgent "B" "OUT2"] "T" ?_
  · exact ⟨by rw [h.1]; rfl, by rw [h.2]; rfl⟩
  · intro a ha
    simp only [List.mem_cons, List.not_mem_nil, or_false] at ha
    rcases ha with rfl | rfl | rfl
    · exact ⟨"OUT1", rfl⟩
    · exact ⟨"ANALYSIS", rfl⟩
    · exact ⟨"OUT2", rfl⟩

theorem resolveOrder_error {V : Type} (agents : List (String × Agent V))
    (order : List String) (n : String) (hmem : n ∈ order)
    (habs : alookup agents n = none) :
    ∃ e, resolveOrder agents order = Except.error e := by
  induction order with
  | nil => cases hmem
  | cons m rest ih =>
    cases hm : alookup agents m with
    | none =>
      exact ⟨"Agent " ++ m ++ " from execution order not found.",
        by simp [resolveOrder, hm]⟩
    | some a =>
      have hmem' : n ∈ rest := by
        rcases List.mem_cons.mp hmem with rfl | h
        · rw [habs] at hm; cases hm
        · exact h
      obtain ⟨e, he⟩ := ih hmem'
      exact ⟨e, by simp [resolveOrder, hm, he, Except.map]⟩

/-- C5: if the configured execution order names a unit with no matching
loaded agent, orchestrator construction fails with the ValueError-class
error from `prepare_execution_sequence`, and no agent's `execute` is ever
invoked (the invocation trace is empty). -/
theorem construct_unknown_agent_fatal (V : Type) (agents : List (String × Agent V))
    (order : List String) (task : V) (n : String)
    (hmem : n ∈ order) (habs : alookup agents n = none) :
    ∃ e, constructAndRun agents order task = ([], Except.error e) := by
  cases order with
  | nil => cases hmem
  | cons m rest =>
    obtain ⟨e, he⟩ := resolveOrder_error agents (m :: rest) n hmem habs
    exact ⟨e, by simp [constructAndRun, prepare_execution_sequence, he]⟩

/-- Witness for C5: `execution_order = ["A", "ghost"]` with only `A`
loaded fails before any `execute` runs. -/
theorem construct_unknown_agent_fatal_witness :
    ∃ e, constructAndRun [("A", echoAgent "A")] ["A", "ghost"] "T" =
      ([], Except.error e) :=
  construct_unknown_agent_fatal String [("A", echoAgent "A")] ["A", "ghost"] "T" "ghost"
    (by decide) rfl

/-- C6: in a three-unit order where the first unit succeeds and the second
raises, `run_sequence` invokes exactly the first two units (each with the
original task), never invokes the third, and propagates the second unit's
error to its caller. -/
theorem run_sequence_abort_on_failure (V : Type) (a b c : Agent V) (task va : V)
    (e : String) (ha : a.exec task = Except.ok va) (hb : b.exec task = Except.error e) :
    run_sequence [a, b, c] task = ([(a.name, task), (b.name, task)], Except.error e) := by
  simp [run_sequence, runSequenceFrom, ha, hb]

/-- Witness for C6 with concrete echo/fail/echo units. -/
theorem run_sequence_abort_on_failure_witness :
    run_sequence [echoAgent "A", failAgent "B" "boom", echoAgent "C"] "T" =
      ([("A", "T"), ("B", "T")], Except.error "boom") :=
  run_sequence_abort_on_failure String (echoAgent "A") (failAgent "B" "boom")
    (echoAgent "C") "T" "T" "boom" rfl rfl

/-- C2 counterexample: a configuration whose top-level key is
`execution_order` (the claim's key) is ignored by
`get_agent_execution_order`, which reads `agent_execution_order` and so
returns the empty-list default instead of the stored list. -/
theorem execution_order_key_counterexample :
    get_agent_execution_order [("execution_order", Json.arr [Json.str "a"])] =
      Json.arr [] ∧
    alookup [("execution_order", Json.arr [Json.str "a"])] "execution_order" =
      some (Json.arr [Json.str "a"]) ∧
    Json.arr [Json.str "a"] ≠ Json.arr [] := by
  refine ⟨rfl, rfl, ?_⟩
  intro h
  injection h with h'
  exact List.cons_ne_nil _ _ h'

/-- C2 as amended: `get_agent_execution_order` returns the dotted-path
lookup `get("agent_execution_order", [])`: the value stored under the
top-level key `agent_execution_order`, and the empty list when that key
is absent. -/
theorem get_agent_execution_order_spec (config : List (String × Json)) :
    (∀ v, alookup config "agent_execution_order" = some v →
      get_agent_execution_order config = v) ∧
    (alookup config "agent_execution_order" = none →
      get_agent_execution_order config = Json.arr []) := by
  constructor
  · intro v hv
    simp [get_agent_execution_order, configGet, getFromDict, hv]
  · intro hv
    simp [get_agent_execution_order, configGet, getFromDict, hv]

/-- Witness for the amended C2: a present key yields its stored list, an
absent key yields the empty list. -/
theorem get_agent_execution_order_spec_witness :
    get_agent_execution_order [("agent_execution_order", Json.arr [Json.str "a1"])] =
      Json.arr [Json.str "a1"] ∧
    get_agent_execution_order [("x", Json.num 1)] = Json.arr [] :=
  ⟨(get_agent_execution_order_spec
      [("agent_execution_order", Json.arr [Json.str "a1"])]).1
      (Json.arr [Json.str "a1"]) rfl,
   (get_agent_execution_order_spec [("x", Json.num 1)]).2 rfl⟩

theorem deepMergeFold_lookup_notmem (ov : List (String × Json))
    (merged : List (String × Json)) (k : String) (hk : k ∉ ov.map Prod.fst) :
    alookup (deepMergeFold merged ov) k = alookup merged k := by
  induction ov generalizing merged with
  | nil => simp [deepMergeFold]
  | cons hd rest ih =>
    obtain ⟨k', v⟩ := hd
    have hk' : ¬k' = k := by
      intro h
      exact hk (by simp [h])
    have hkr : k ∉ rest.map Prod.fst := by
      intro h
      exact hk (by simp [h])
    cases v with
    | obj entries =>
      cases hb : alookup merged k' with
      | none =>
        rw [deepMergeFold, hb, ih _ hkr, alookup_aset]
        simp [hk']
      | some w =>
        cases w with
        | obj bentries =>
          rw [deepMergeFold, hb, ih _ hkr, alookup_aset]
          simp [hk']
        | null =>
          rw [deepMergeFold, hb, ih _ hkr, alookup_aset]
          simp [hk']
        | bool b =>
          rw [deepMergeFold, hb, ih _ hkr, alookup_aset]
          simp [hk']
        | num x =>
          rw [deepMergeFold, hb, ih _ hkr, alookup_aset]
          simp [hk']
        | str s =>
          rw [deepMergeFold, hb, ih _ hkr, alookup_aset]
          simp [hk']
        | arr xs =>
          rw [deepMergeFold, hb, ih _ hkr, alookup_aset]
          simp [hk']
    | null =>
      rw [deepMergeFold, ih _ hkr, alookup_aset]
      · simp [hk']
      · exact fun ov h => Json.noConfusion h
    | bool b =>
      rw [deepMergeFold, ih _ hkr, alookup_aset]
      · simp [hk']
      · exact fun ov h => Json.noConfusion h
    | num x =>
      rw [deepMergeFold, ih _ hkr, alookup_aset]
      · simp [hk']
      · exact fun ov h => Json.noConfusion h
    | str s =>
      rw [deepMergeFold, ih _ hkr, alookup_aset]
      · simp [hk']
      · exact fun ov h => Json.noConfusion h
    | arr xs =>
      rw [deepMergeFold, ih _ hkr, alookup_aset]
      · simp [hk']
      · exact fun ov h => Json.noConfusion h

theorem deepMergeFold_lookup (ov : List (String × Json)) (merged : List (String × Json))
    (k : String) (hnd : (ov.map Prod.fst).Nodup) :
    alookup (deepMergeFold merged ov) k =
      match alookup ov k with
      | none => alookup merged k
      | some v =>
        match v, alookup merged k with
        | Json.obj o2, some (Json.obj b2) => some (Json.obj (deepMergeFold b2 o2))
        | _, _ => some v := by
  induction ov generalizing merged with
  | nil => simp [deepMergeFold, alookup]
  | cons hd rest ih =>
    obtain ⟨k', v⟩ := hd
    have hnd' : (rest.map Prod.fst).Nodup := (List.nodup_cons.mp hnd).2
    by_cases hk : k' = k
    · subst hk
      have hnr : k' ∉ rest.map Prod.fst := (List.nodup_cons.mp hnd).1
      have hstep : ∀ x : Json, alookup (deepMergeFold (aset merged k' x) rest) k' = some x := by
        intro x
        rw [deepMergeFold_lookup_notmem rest _ k' hnr, alookup_aset]
        simp
      cases v with
      | obj entries =>
        cases hb : alookup merged k' with
        | none =>
          rw [deepMergeFold, hb]
          simp [alookup, hstep]
        | some w =>
          cases w with
          | obj bentries =>
            rw [deepMergeFold, hb]
            simp [alookup, hb, hstep]
          | null =>
            rw [deepMergeFold, hb]
            simp [alookup, hb, hstep]
          | bool b =>
            rw [deepMergeFold, hb]
            simp [alookup, hb, hstep]
          | num x =>
            rw [deepMergeFold, hb]
            simp [alookup, hb, hstep]
          | str s =>
            rw [deepMergeFold, hb]
            simp [alookup, hb, hstep]
          | arr xs =>
            rw [deepMergeFold, hb]
            simp [alookup, hb, hstep]
      | null =>
        rw [deepMergeFold]
        · simp [alookup, hstep]
        · exact fun ov h => Json.noConfusion h
      | bool b =>
        rw [deepMergeFold]
        · simp [alookup, hstep]
        · exact fun ov h => Json.noConfusion h
      | num x =>
        rw [deepMergeFold]
        · simp [alookup, hstep]
        · exact fun ov h => Json.noConfusion h
      | str s =>
        rw [deepMergeFold]
        · simp [alookup, hstep]
        · exact fun ov h => Json.noConfusion h
      | arr xs =>
        rw [deepMergeFold]
        · simp [alookup, hstep]
        · exact fun ov h => Json.noConfusion h
    · have hlr : alookup ((k', v) :: rest) k = alookup rest k := by
        simp [alookup, hk]
      have haset : ∀ x : Json, alookup (aset merged k' x) k = alookup merged k := by
        intro x
        rw [alookup_aset]
        simp [hk]
      cases v with
      | obj entries =>
        cases hb : alookup merged k' with
        | none =>
          rw [deepMergeFold, hb, ih _ hnd', hlr, haset]
        | some w =>
          cases w with
          | obj bentries => rw [deepMergeFold, hb, ih _ hnd', hlr, haset]
          | null => rw [deepMergeFold, hb, ih _ hnd', hlr, haset]
          | bool b => rw [deepMergeFold, hb, ih _ hnd', hlr, haset]
          | num x => rw [deepMergeFold, hb, ih _ hnd', hlr, haset]
          | str s => rw [deepMergeFold, hb, ih _ hnd', hlr, haset]
          | arr xs => rw [deepMergeFold, hb, ih _ hnd', hlr, haset]
      | null =>
        rw [deepMergeFold, ih _ hnd', hlr, haset]
        exact fun ov h => Json.noConfusion h
      | bool b =>
        rw [deepMergeFold, ih _ hnd', hlr, haset]
        exact fun ov h => Json.noConfusion h
      | num x =>
        rw [deepMergeFold, ih _ hnd', hlr, haset]
        exact fun ov h => Json.noConfusion h
      | str s =>
        rw [deepMergeFold, ih _ hnd', hlr, haset]
        exact fun ov h => Json.noConfusion h
      | arr xs =>
        rw [deepMergeFold, ih _ hnd', hlr, haset]
        exact fun ov h => Json.noConfusion h

/-- C3: the deep merge of an override tree onto a base tree maps every key
absent from the override to the base value, recursively merges keys at
which both trees hold mappings, and maps every other key of the override
to the override value wholesale — exactly `mergeSpec`.  (The embedding is
purely functional, mirroring the `copy.deepcopy(base)` at the top of
`_deep_merge`: the base tree is never mutated.) -/
theorem deep_merge_spec (b o : List (String × Json)) (k : String)
    (hnd : (o.map Prod.fst).Nodup) :
    alookup (deep_merge b o) k = mergeSpec b o k := by
  rw [deep_merge, mergeSpec, deepMergeFold_lookup o b k hnd]
  rfl

/-- Witness for C3 on the spec example:
base `{"a":{"x":1,"y":2}}`, override `{"a":{"y":9,"z":3}}` merge to
`{"a":{"x":1,"y":9,"z":3}}`. -/
theorem deep_merge_spec_witness :
    alookup (deep_merge bEx oEx) "a" = mergeSpec bEx oEx "a" ∧
    alookup (deep_merge bEx oEx) "a" =
      some (Json.obj [("x", Json.num 1), ("y", Json.num 9), ("z", Json.num 3)]) := by
  have h := deep_merge_spec bEx oEx "a" (by decide)
  refine ⟨h, ?_⟩
  rw [h]
  simp [mergeSpec, bEx, oEx, deep_merge, deepMergeFold, alookup, aset]

/-- C7 counterexample: with the store holding a non-mapping at `a`,
`set` on the dotted path `a.b` raises (`setdefault` walks into the
integer), so the set-then-get round trip fails for this path. -/
theorem setPath_nonmapping_counterexample :
    setPath [("a", Json.num 5)] ["a", "b"] (Json.num 1) = Except.error () := rfl

/-- C7 as amended: whenever `set` on a dotted path succeeds — that is, no
existing non-mapping value sits on a proper prefix of the path — a
subsequent `get` of the same path returns the value just set, including
when `set` created intermediate mappings; `set` raises when a proper
prefix of the path holds a non-mapping. -/
theorem setPath_get_roundtrip (cfg cfg2 : List (String × Json)) (path : List String)
    (v default : Json) (hok : setPath cfg path v = Except.ok cfg2) :
    getFromDict (Json.obj cfg2) path default = v := by
  induction path generalizing cfg cfg2 with
  | nil => simp [setPath] at hok
  | cons k rest ih =>
    cases rest with
    | nil =>
      simp only [setPath, Except.ok.injEq] at hok
      subst hok
      simp [getFromDict, alookup_aset]
    | cons k2 rest2 =>
      simp only [setPath] at hok
      cases hl : alookup cfg k with
      | none =>
        rw [hl] at hok
        cases hin : setPath [] (k2 :: rest2) v with
        | error e =>
          rw [hin] at hok
          cases hok
        | ok inner =>
          rw [hin] at hok
          simp only [Except.map, Except.ok.injEq] at hok
          subst hok
          simp only [getFromDict, alookup_aset, if_pos rfl]
          exact ih [] inner hin
      | some w =>
        rw [hl] at hok
        cases w with
        | obj inner =>
          simp only [] at hok
          cases hin : setPath inner (k2 :: rest2) v with
          | error e =>
            rw [hin] at hok
            simp only [Except.map] at hok
            cases hok
          | ok inner2 =>
            rw [hin] at hok
            simp only [Except.map, Except.ok.injEq] at hok
            subst hok
            simp only [getFromDict, alookup_aset, if_pos rfl]
            exact ih inner inner2 hin
        | null => cases hok
        | bool b => cases hok
        | num x => cases hok
        | str s => cases hok
        | arr xs => cases hok

/-- Witness for the amended C7: `set` from the empty store on path `a.b`
creates the intermediate mapping and `get` returns the value. -/
theorem setPath_get_roundtrip_witness :
    getFromDict (Json.obj [("a", Json.obj [("b", Json.num 7)])]) ["a", "b"] Json.null =
      Json.num 7 :=
  setPath_get_roundtrip [] [("a", Json.obj [("b", Json.num 7)])] ["a", "b"] (Json.num 7)
    Json.null rfl

/-- C10: whenever `load_config` raises — malformed JSON, or a document
that fails schema validation — the previously held configuration tree is
returned unchanged; the new document is assigned only after parsing and
validation both succeed. -/
theorem load_config_atomic_on_error (validate : List (String × Json) → Bool)
    (file : ConfigFile) (config : List (String × Json)) (e : LoadError)
    (herr : (load_config validate file config).1 = Except.error e) :
    (load_config validate file config).2 = config := by
  cases file with
  | missing => simp [load_config] at herr
  | malformed => simp [load_config]
  | parsed doc =>
    by_cases hv : validate doc
    · simp [load_config, hv] at herr
    · simp [load_config, hv]

/-- Witness for C10: a document failing validation leaves the prior
configuration in place. -/
theorem load_config_atomic_on_error_witness :
    (load_config (fun _ => false) (ConfigFile.parsed [("k", Json.null)])
      [("x", Json.num 1)]).2 = [("x", Json.num 1)] :=
  load_config_atomic_on_error (fun _ => false) (ConfigFile.parsed [("k", Json.null)])
    [("x", Json.num 1)] LoadError.validationError rfl

theorem matchP1_space (cs : List Char) : matchP1 (' ' :: cs) = none := rfl

theorem matchP2_space (cs : List Char) : matchP2 (' ' :: cs) = none := rfl

theorem matchP3_space (cs : List Char) : matchP3 (' ' :: cs) = none := rfl

theorem substFuel_replicate_space (m : List Char → Option (List Char))
    (hm : ∀ cs, m (' ' :: cs) = none) (n f : Nat) (cs : List Char) :
    substFuel m (n + f) (List.replicate n ' ' ++ cs) =
      List.replicate n ' ' ++ substFuel m f cs := by
  induction n with
  | zero => simp
  | succ k ih =>
    have hstep : k + 1 + f = (k + f) + 1 := by omega
    rw [hstep, List.replicate_succ, List.cons_append]
    simp only [substFuel, hm]
    rw [ih, List.cons_append]

theorem reSub_replicate_space (m : List Char → Option (List Char))
    (hm : ∀ cs, m (' ' :: cs) = none) (n : Nat) (cs : List Char) :
    reSub m (List.replicate n ' ' ++ cs) =
      List.replicate n ' ' ++ substFuel m cs.length cs := by
  rw [reSub, List.length_append, List.length_replicate]
  exact substFuel_replicate_space m hm n cs.length cs

theorem isEmpty_replicate_append_probe (n : Nat) :
    (List.replicate n ' ' ++ probeChars).isEmpty = false := by
  cases n with
  | zero => rfl
  | succ k => rfl

theorem containsSub_secret_replicate (n : Nat) (cs : List Char) :
    containsSub secretChars (List.replicate n ' ' ++ cs) = containsSub secretChars cs := by
  induction n with
  | zero => simp
  | succ k ih =>
    rw [List.replicate_succ, List.cons_append, containsSub]
    have hpre : isPrefixB secretChars (' ' :: (List.replicate k ' ' ++ cs)) = false := rfl
    rw [hpre, Bool.false_or]
    exact ih

theorem containsSub_marker_replicate (n : Nat) :
    containsSub redactedMarker (List.replicate n ' ' ++ redactedMarker) = true := by
  induction n with
  | zero =>
    rw [List.replicate_zero, List.nil_append]
    decide
  | succ k ih =>
    rw [List.replicate_succ, List.cons_append, containsSub]
    have hpre : isPrefixB redactedMarker
        (' ' :: (List.replicate k ' ' ++ redactedMarker)) = false := rfl
    rw [hpre, Bool.false_or]
    exact ih

/-- C8 counterexample: the input `api_key=abcdef123456 abcdef123456`
contains the probe substring, yet its sanitized form still contains the
literal secret — the bare second occurrence matches none of the three
redaction patterns (it is only 12 base64 characters and is not preceded
by a credential keyword). -/
theorem sanitize_secret_survives_counterexample :
    containsSub probeChars (probeChars ++ [' '] ++ secretChars) = true ∧
    containsSub secretChars
      (sanitize_for_logging (probeChars ++ [' '] ++ secretChars) 200) = true := by
  exact ⟨by decide, by decide⟩

/-- C8 as amended: for every string made of at most 180 leading spaces
followed by `api_key=abcdef123456` (so the probe is the only occurrence
of the secret and lies inside the 200-character preview), the sanitized
result is the spaces followed by `[REDACTED]`: the literal secret is
absent and the redaction marker is present.  (The unrestricted claim is
false: see the counterexample, and a secret lying wholly past the
truncation cut leaves no redaction marker at all.) -/
theorem sanitize_spaced_probe (n : Nat) (hn : n ≤ 180) :
    sanitize_for_logging (List.replicate n ' ' ++ probeChars) 200 =
      List.replicate n ' ' ++ redactedMarker ∧
    containsSub secretChars (List.replicate n ' ' ++ redactedMarker) = false ∧
    containsSub redactedMarker (List.replicate n ' ' ++ redactedMarker) = true := by
  refine ⟨?_, ?_, ?_⟩
  · have hE := isEmpty_replicate_append_probe n
    have hlen : (List.replicate n ' ' ++ probeChars).length = n + 20 := by
      rw [List.length_append, List.length_replicate]
      rfl
    have hnotlong : ¬(List.replicate n ' ' ++ probeChars).length > 200 := by
      rw [hlen]
      omega
    simp only [sanitize_for_logging, hE, Bool.false_eq_true, if_false, if_neg hnotlong]
    rw [reSub_replicate_space matchP1 matchP1_space n probeChars]
    have h1 : substFuel matchP1 probeChars.length probeChars = redactedMarker := rfl
    rw [h1, reSub_replicate_space matchP2 matchP2_space n redactedMarker]
    have h2 : substFuel matchP2 redactedMarker.length redactedMarker = redactedMarker := rfl
    rw [h2, reSub_replicate_space matchP3 matchP3_space n redactedMarker]
    have h3 : substFuel matchP3 redactedMarker.length redactedMarker = redactedMarker := rfl
    rw [h3]
  · rw [containsSub_secret_replicate n redactedMarker]
    decide
  · exact containsSub_marker_replicate n

/-- Witness for the amended C8 at two leading spaces. -/
theorem sanitize_spaced_probe_witness :
    sanitize_for_logging (List.replicate 2 ' ' ++ probeChars) 200 =
      List.replicate 2 ' ' ++ redactedMarker ∧
    containsSub secretChars (List.replicate 2 ' ' ++ redactedMarker) = false ∧
    containsSub redactedMarker (List.replicate 2 ' ' ++ redactedMarker) = true :=
  sanitize_spaced_probe 2 (by decide)

end Loom
